import Mathlib

/-!
Verification of the command-interpreter core of the stataconda repository
(src/main.py) against its specification.  Strings are modelled as `List Char`;
Python dictionaries as insertion-ordered association lists with overwrite;
machine integers as `Int`.  Each definition is a direct translation of the
named Python function; line numbers refer to src/main.py.
-/

namespace Stataconda

/-- Python whitespace as used by `str.strip()` / `str.split()` (ASCII model). -/
def pySpace (c : Char) : Bool :=
  c = ' ' || c = '\t' || c = '\n' || c = '\r' || c = '\x0b' || c = '\x0c'

/-- `s.strip()`: remove leading and trailing whitespace. -/
def stripList (l : List Char) : List Char :=
  ((l.dropWhile pySpace).reverse.dropWhile pySpace).reverse

/-- `s.lower()` (ASCII model). -/
def lowerList (l : List Char) : List Char := l.map Char.toLower

/-- Auxiliary for `splitWS`: accumulates the current token (reversed). -/
def splitWSAux : List Char → List Char → List (List Char)
  | [], acc => if acc = [] then [] else [acc.reverse]
  | c :: rest, acc =>
    if pySpace c then
      if acc = [] then splitWSAux rest []
      else acc.reverse :: splitWSAux rest []
    else splitWSAux rest (c :: acc)

/-- `s.split()` with no argument: split on whitespace runs, dropping empties. -/
def splitWS (l : List Char) : List (List Char) := splitWSAux l []

/-- Insertion-ordered dictionary update, mirroring Python `d[k] = v`:
an existing key keeps its position, a new key is appended. -/
def assocSet {κ α : Type} [DecidableEq κ] : List (κ × α) → κ → α → List (κ × α)
  | [], k, v => [(k, v)]
  | (k', v') :: rest, k, v =>
    if k' = k then (k, v) :: rest else (k', v') :: assocSet rest k v

/-- Dictionary lookup, mirroring Python `d.get(k)`. -/
def assocGet {κ α : Type} [DecidableEq κ] : List (κ × α) → κ → Option α
  | [], _ => none
  | (k', v') :: rest, k => if k' = k then some v' else assocGet rest k

/-!  ## Option parser (`_parse_options`, src/main.py lines 1201-1259)  -/

/-- An option value: `True` for a flag, or the literal value text. -/
inductive OptVal : Type
  | flag : OptVal
  | str : List Char → OptVal
deriving DecidableEq

/-- Dictionary keys of `_parse_options`: Python uses `current_option`, which is
`None` or a string, as the key on some paths, so keys are `Option (List Char)`. -/
abbrev OptKey := Option (List Char)

abbrev OptMap := List (OptKey × OptVal)

/-- Loop state of `_parse_options`: the accumulated dictionary, the `current`
buffer, the parenthesis `depth`, the `in_quotes` flag and `current_option`. -/
structure POState : Type where
  options : OptMap
  current : List Char
  depth : Int
  inQuotes : Bool
  currentOption : Option (List Char)
deriving DecidableEq

/-- One iteration of the character loop of `_parse_options` (lines 1219-1250). -/
def poStep (st : POState) (c : Char) : POState :=
  if c = '"' then
    { st with inQuotes := !st.inQuotes, current := st.current ++ [c] }
  else if c = '(' ∧ st.inQuotes = false then
    if st.depth = 0 then
      { st with currentOption := some (lowerList (stripList st.current)),
                current := [], depth := st.depth + 1 }
    else { st with depth := st.depth + 1 }
  else if c = ')' ∧ st.inQuotes = false then
    let d := st.depth - 1
    if d = 0 then
      { st with depth := d,
                options := assocSet st.options st.currentOption (.str st.current),
                currentOption := none, current := [] }
    else { st with depth := d, current := st.current ++ [c] }
  else if c = ' ' ∧ st.depth = 0 ∧ st.inQuotes = false then
    if st.current = [] then st
    else
      match st.currentOption with
      | none =>
        { st with options := assocSet st.options (some (lowerList st.current)) .flag,
                  current := [], currentOption := none }
      | some k =>
        { st with options := assocSet st.options (some k) (.str st.current),
                  current := [], currentOption := none }
  else { st with current := st.current ++ [c] }

def poInit : POState := ⟨[], [], 0, false, none⟩

/-- The trailing-option commit of `_parse_options` (lines 1252-1257). -/
def poFlush (st : POState) : OptMap :=
  if st.current = [] then st.options
  else
    match st.currentOption with
    | none => assocSet st.options (some (lowerList st.current)) .flag
    | some k => assocSet st.options (some k) (.str st.current)

/-- `_parse_options(options_str)` (lines 1201-1259).  Note: the function has no
error channel; whatever state the scan ends in, the accumulated dictionary is
returned (the `if not options_str: return {}` guard coincides with the fold). -/
def parse_options (cs : List Char) : OptMap :=
  poFlush (cs.foldl poStep poInit)

/-- The parenthesis depth `_parse_options` is left in at end of input. -/
def parse_optionsEndDepth (cs : List Char) : Int :=
  (cs.foldl poStep poInit).depth

/-- The `in_quotes` flag `_parse_options` is left in at end of input. -/
def parse_optionsEndQuotes (cs : List Char) : Bool :=
  (cs.foldl poStep poInit).inQuotes

/-!  ## Command splitter (`_split_command_options`, src/main.py lines 1261-1279)  -/

/-- The scanning loop of `_split_command_options`: position of the first comma
at depth 0 outside quotes.  The `elif` chain updates `in_quotes`/`depth` first
(a no-op when the character is a comma), then tests for the split. -/
def sco_loop : List Char → Int → Bool → Option Nat
  | [], _, _ => none
  | c :: rest, d, q =>
    let q2 := if c = '"' then !q else q
    let d2 := if c = '(' ∧ q = false then d + 1
              else if c = ')' ∧ q = false then d - 1 else d
    if c = ',' ∧ d2 = 0 ∧ q2 = false then some 0
    else (sco_loop rest d2 q2).map (· + 1)

/-- `_split_command_options(command)` (lines 1261-1279), including the early
return when the command contains no comma at all. -/
def split_command_options (cs : List Char) : List Char × List Char :=
  if ',' ∈ cs then
    match sco_loop cs 0 false with
    | some i => (stripList (cs.take i), stripList (cs.drop (i + 1)))
    | none => (stripList cs, [])
  else (stripList cs, [])

/-- Modelled from the spec (§4.3): scan maintaining `inQuotes` (toggled on a
quote) and `parenDepth` (adjusted outside quotes); the first separator comma
seen with `parenDepth == 0` and `inQuotes == false` ends the main clause. -/
def specTopComma : List Char → Int → Bool → Option Nat
  | [], _, _ => none
  | c :: rest, d, q =>
    if c = ',' ∧ d = 0 ∧ q = false then some 0
    else
      let q2 := if c = '"' then !q else q
      let d2 := if c = '(' ∧ q = false then d + 1
                else if c = ')' ∧ q = false then d - 1 else d
      (specTopComma rest d2 q2).map (· + 1)

/-- Modelled from the spec (§4.3): split at the first top-level separator,
both parts trimmed; if none exists the whole trimmed command is the main
clause and the option clause is empty. -/
def splitSpecModel (cs : List Char) : List Char × List Char :=
  match specTopComma cs 0 false with
  | some i => (stripList (cs.take i), stripList (cs.drop (i + 1)))
  | none => (stripList cs, [])

/-- Python substring test `pat in hay`. -/
def strContains (hay pat : List Char) : Bool :=
  if pat.isPrefixOf hay then true
  else
    match hay with
    | [] => false
    | _ :: rest => strContains rest pat

/-!  ## Group-prefix rewriter (`execute_command`, src/main.py lines 2967-2982)  -/

/-- `\w` of the regex module (ASCII model). -/
def wordChar (c : Char) : Bool := c.isAlphanum || c = '_'

/-- `[\w\s]` character class. -/
def wordSp (c : Char) : Bool := wordChar c || pySpace c

/-- `re.match(r'^by[s]?\s+([\w\s]+):\s*(.+)$', cmd)` with both groups already
passed through `.strip()` as lines 2970-2971 do.  The greedy run `[\w\s]+`
cannot cross the colon, so a match requires the maximal word/space run after
`by`/`bys` to be followed by `:`; `\s+` forces its first character to be
whitespace and `[\w\s]+` forces length at least 2; `(.+)$` forces a nonempty
remainder.  Stripping the groups erases the engine's exact backtracking split,
so the stripped groups are `strip run` and `strip remainder`.  When the
character after `by` is `s` the engine commits to consuming it: the branch
without `s` would need whitespace where `s` stands, so it can never succeed. -/
def byMatch (cs : List Char) : Option (List Char × List Char) :=
  match cs with
  | 'b' :: 'y' :: rest =>
    let body := if rest.head? = some 's' then rest.tail else rest
    let run := body.takeWhile wordSp
    match body.drop run.length with
    | ':' :: after =>
      if (run.head?.map pySpace).getD false ∧ 2 ≤ run.length ∧ after ≠ [] then
        some (stripList run, stripList after)
      else none
    | _ => none
  | _ => none

/-- The `by`-prefix rewrite of `execute_command` (lines 2967-2982): on a match
the command is replaced by the inner command; only when the inner command
starts (case-insensitively) with `egen ` and does not already contain `, by(`
is a `by(...)` option appended, with a comma inserted unless one is present. -/
def byRewrite (cmd : List Char) : List Char :=
  match byMatch cmd with
  | none => cmd
  | some (vars, inner) =>
    if ("egen ".toList).isPrefixOf (lowerList inner) then
      if strContains inner (", by(".toList) then inner
      else if ',' ∈ inner then inner ++ " by(".toList ++ vars ++ [')']
      else inner ++ ", by(".toList ++ vars ++ [')']
    else inner

/-!  ## Comment stripper (`_strip_stata_comments`, src/main.py lines 3079-3098)  -/

/-- The quote-aware scan removing an end-of-line `//` comment (lines 3085-3097). -/
def sccLoop : List Char → Bool → List Char
  | [], _ => []
  | c :: rest, q =>
    if c = '"' then c :: sccLoop rest (!q)
    else if q = false ∧ c = '/' ∧ rest.head? = some '/' then []
    else c :: sccLoop rest q

/-- `_strip_stata_comments(command)` (lines 3079-3098): a full-line `*` or `//`
comment yields the empty string; otherwise the quote-aware scan runs and the
result is stripped. -/
def strip_stata_comments (cs : List Char) : List Char :=
  if (stripList cs).head? = some '*' ∨ ("//".toList).isPrefixOf (stripList cs) then []
  else stripList (sccLoop cs false)

/-!  ## Per-command pipeline step (`execute_command`, src/main.py lines 2958-2987)

For each processed command the loop first appends it to `command_history`
(line 2964), then applies the by-prefix rewrite (2967-2982), then strips
comments (2985); a command empty after stripping is skipped (`continue`,
line 2986-2987) — producing no dispatch and no error. -/

/-- One iteration of the command loop up to the dispatch decision: returns the
new history and `some exec_command` when the command is dispatched, `none`
when it is dropped. -/
def execute_command_step (history : List (List Char)) (cmd : List Char) :
    List (List Char) × Option (List Char) :=
  let h2 := history ++ [cmd]
  let ec := strip_stata_comments (byRewrite cmd)
  if ec = [] then (h2, none) else (h2, some ec)

/-!  ## Command registry (`setup_command_registry`, src/main.py lines 633-714)  -/

/-- One tag per distinct handler referenced by the registry.  The two
`lambda cmd: self.open_data_browser()` entries (lines 643-644) share a tag. -/
inductive Handler : Type
  | cmd_use | cmd_save | cmd_importData | cmd_exportData | cmd_describe
  | cmd_codebook | openDataBrowserLam | translate_reghdfe | translate_ivreghdfe
  | cmd_summarize | cmd_tabulate | cmd_histogram | cmd_graph_bar | cmd_scatter
  | cmd_generate | cmd_replace | cmd_drop | cmd_keep | cmd_rename | cmd_recode
  | cmd_clonevar | cmd_label_variable | cmd_append | cmd_merge | cmd_joinby
  | cmd_cross | cmd_anova | cmd_areg | cmd_xtreg | cmd_fe | cmd_logit
  | cmd_probit | cmd_logistic | cmd_poisson | cmd_nbreg | cmd_tobit
  | cmd_intreg | cmd_ivregress | cmd_xtset | cmd_xtlogit | cmd_xtprobit
  | cmd_xtpoisson | cmd_xtabond | cmd_xtdpdsys | cmd_tsset | cmd_arima
  | cmd_arch | cmd_var | cmd_vec | cmd_newey | cmd_binscatter | cmd_coefplot
  | cmd_lgraph | cmd_hist | cmd_do | cmd_egen | cmd_estout | cmd_eststo
  | cmd_esttab | cmd_list | cmd_collapse | cmd_reshape | cmd_sort | cmd_edit
  | cmd_bash | cmd_browse
deriving DecidableEq

set_option maxHeartbeats 1000000 in
/-- The dictionary literal of `setup_command_registry` in source order
(lines 635-712); the key `browse` appears twice and, as in a Python dict
literal, the later entry wins. -/
def registryPairs : List (List Char × Handler) :=
  [("use".toList, .cmd_use), ("save".toList, .cmd_save),
   ("import".toList, .cmd_importData), ("export".toList, .cmd_exportData),
   ("describe".toList, .cmd_describe), ("codebook".toList, .cmd_codebook),
   ("browse".toList, .openDataBrowserLam), ("bro".toList, .openDataBrowserLam),
   ("reghdfe".toList, .translate_reghdfe), ("reg".toList, .translate_reghdfe),
   ("regress".toList, .translate_reghdfe),
   ("ivreghdfe".toList, .translate_ivreghdfe),
   ("ivreg".toList, .translate_ivreghdfe),
   ("ivregress".toList, .translate_ivreghdfe),
   ("summarize".toList, .cmd_summarize), ("su".toList, .cmd_summarize),
   ("tabulate".toList, .cmd_tabulate), ("histogram".toList, .cmd_histogram),
   ("graph".toList, .cmd_graph_bar), ("scatter".toList, .cmd_scatter),
   ("generate".toList, .cmd_generate), ("gen".toList, .cmd_generate),
   ("g".toList, .cmd_generate), ("replace".toList, .cmd_replace),
   ("drop".toList, .cmd_drop), ("keep".toList, .cmd_keep),
   ("rename".toList, .cmd_rename), ("ren".toList, .cmd_rename),
   ("recode".toList, .cmd_recode), ("clonevar".toList, .cmd_clonevar),
   ("label".toList, .cmd_label_variable), ("append".toList, .cmd_append),
   ("merge".toList, .cmd_merge), ("joinby".toList, .cmd_joinby),
   ("cross".toList, .cmd_cross), ("anova".toList, .cmd_anova),
   ("areg".toList, .cmd_areg), ("xtreg".toList, .cmd_xtreg),
   ("fe".toList, .cmd_fe), ("logit".toList, .cmd_logit),
   ("probit".toList, .cmd_probit), ("logistic".toList, .cmd_logistic),
   ("poisson".toList, .cmd_poisson), ("nbreg".toList, .cmd_nbreg),
   ("tobit".toList, .cmd_tobit), ("intreg".toList, .cmd_intreg),
   ("control_function".toList, .cmd_ivregress), ("xtset".toList, .cmd_xtset),
   ("xtlogit".toList, .cmd_xtlogit), ("xtprobit".toList, .cmd_xtprobit),
   ("xtpoisson".toList, .cmd_xtpoisson), ("xtabond".toList, .cmd_xtabond),
   ("xtdpdsys".toList, .cmd_xtdpdsys), ("tsset".toList, .cmd_tsset),
   ("arima".toList, .cmd_arima), ("arch".toList, .cmd_arch),
   ("var".toList, .cmd_var), ("vec".toList, .cmd_vec),
   ("newey".toList, .cmd_newey), ("binscatter".toList, .cmd_binscatter),
   ("coefplot".toList, .cmd_coefplot), ("lgraph".toList, .cmd_lgraph),
   ("hist".toList, .cmd_hist), ("do".toList, .cmd_do),
   ("egen".toList, .cmd_egen), ("estout".toList, .cmd_estout),
   ("eststo".toList, .cmd_eststo), ("esttab".toList, .cmd_esttab),
   ("list".toList, .cmd_list), ("collapse".toList, .cmd_collapse),
   ("reshape".toList, .cmd_reshape), ("sort".toList, .cmd_sort),
   ("edit".toList, .cmd_edit), ("bash".toList, .cmd_bash),
   ("browse".toList, .cmd_browse)]

/-- Registry lookup: last entry for a key wins, mirroring a Python dict
literal with duplicate keys.  The re-assignment of `egen` at line 714 maps it
to the same handler and is a no-op. -/
def registryGet (k : List Char) : Option Handler :=
  registryPairs.foldl (fun acc p => if p.1 = k then some p.2 else acc) none

/-!  ## Dispatcher routing (`execute_command`, src/main.py lines 2990-3055)  -/

/-- The route a stripped, nonempty `exec_command` takes through the
`if`/`elif` chain of `execute_command`.  `pyExec` is the `>` path: the payload
is executed with `exec` in the persistent `self._python_context` (lines
2999-3012); `pyFallback` is the same persistent-context execution for
commands whose keyword is not registered (lines 3050-3067). -/
inductive Route : Type
  | shellBang (payload : List Char)
  | pyExec (payload : List Char)
  | bashCmd (payload : List Char)
  | chdir (payload : List Char)
  | direct (cmd : List Char)
  | table (h : Handler) (full : List Char)
  | pyFallback (full : List Char)
deriving DecidableEq

/-- The routing decision of `execute_command` (lines 2990-3055) in source
order: `!`, then `>`, then `bash `, then `cd `, then exact `pwd`/`ls`, then
the keyword table on the lower-cased first token, else the scripting
fallback. -/
def route (ec : List Char) : Route :=
  if ec.head? = some '!' then .shellBang (stripList ec.tail)
  else if ec.head? = some '>' then .pyExec (stripList ec.tail)
  else if ("bash ".toList).isPrefixOf ec then .bashCmd (ec.drop 5)
  else if ("cd ".toList).isPrefixOf ec then .chdir (stripList (ec.drop 3))
  else if ec = "pwd".toList ∨ ec = "ls".toList then .direct ec
  else
    match registryGet (lowerList ((splitWS ec).headD [])) with
    | some h => .table h ec
    | none => .pyFallback ec

/-!  ## Stored-estimate registry (`StoredEstimates`, src/main.py lines 3101-3143)  -/

/-- The metadata record built by `StoredEstimates.store` (lines 3108-3116),
parametrised by the opaque fitted-model type `μ` owned by the statistics
engine.  The wall-clock `timestamp` and the initially empty `stats` dict are
omitted: neither is consulted by the commands under study and the timestamp
is not representable in a pure embedding. -/
structure EstRecord (μ : Type) : Type where
  model : μ
  model_type : List Char
  depvar : List Char
  indepvars : List (List Char)
  options : OptMap
deriving DecidableEq

/-- The registry object: the `estimates` dict and `current_name`
(lines 3102-3104). -/
structure StoredEstimates (μ : Type) : Type where
  estimates : List (List Char × EstRecord μ)
  current_name : Option (List Char)
deriving DecidableEq

/-- `StoredEstimates.store` (lines 3106-3117): unconditional overwrite, then
`current_name = name`. -/
def StoredEstimates.store {μ : Type} (st : StoredEstimates μ) (name : List Char)
    (model : μ) (model_type : List Char) (depvar : List Char)
    (indepvars : List (List Char)) (options : OptMap := []) : StoredEstimates μ :=
  { estimates := assocSet st.estimates name ⟨model, model_type, depvar, indepvars, options⟩,
    current_name := some name }

/-- `StoredEstimates.get` (lines 3119-3121): pure dictionary lookup. -/
def StoredEstimates.get {μ : Type} (st : StoredEstimates μ) (name : List Char) :
    Option (EstRecord μ) :=
  assocGet st.estimates name

/-!  ## esttab name resolution (`cmd_esttab`, src/main.py lines 2643-2678)  -/

/-- The estimate names `cmd_esttab` requests (lines 2643-2655): the
whitespace tokens of the main part after the keyword, defaulting to every
stored name when none are given. -/
def cmd_esttab_names {μ : Type} (st : StoredEstimates μ) (cmd : List Char) :
    List (List Char) :=
  let main := if ',' ∈ cmd then cmd.takeWhile (· ≠ ',') else cmd
  let parts := splitWS main
  if 1 < parts.length then parts.drop 1 else st.estimates.map (·.1)

/-- Result of the resolution loop of `cmd_esttab` (lines 2672-2678). -/
inductive EsttabResolve (μ : Type) : Type
  | missing (n : List Char) : EsttabResolve μ
  | found (rows : List (List Char × EstRecord μ)) : EsttabResolve μ
deriving DecidableEq

/-- The resolution loop of `cmd_esttab` (lines 2672-2678): names are looked
up in order; the first missing name aborts the whole call with the error
`Error: Estimate <name> not found` (the `missing` constructor carries the
offending name).  A stored record is a nonempty dict, so Python's truthiness
test `if est:` coincides with presence. -/
def esttab_resolve {μ : Type} (st : StoredEstimates μ) :
    List (List Char) → EsttabResolve μ
  | [] => .found []
  | n :: rest =>
    match st.get n with
    | none => .missing n
    | some e =>
      match esttab_resolve st rest with
      | .missing m => .missing m
      | .found rs => .found ((n, e) :: rs)

/-- Outcome of `cmd_esttab` up to table construction: the empty-name-list
error (lines 2657-2658), a missing-name error, or the resolved rows. -/
inductive EsttabOutcome (μ : Type) : Type
  | noEstimates : EsttabOutcome μ
  | missing (n : List Char) : EsttabOutcome μ
  | table (rows : List (List Char × EstRecord μ)) : EsttabOutcome μ
deriving DecidableEq

/-- `cmd_esttab` resolution phase (lines 2643-2678). -/
def cmd_esttab_resolve {μ : Type} (st : StoredEstimates μ) (cmd : List Char) :
    EsttabOutcome μ :=
  let names := cmd_esttab_names st cmd
  if names = [] then .noEstimates
  else
    match esttab_resolve st names with
    | .missing n => .missing n
    | .found rs => .table rs

/-!  ## coefplot name resolution (`cmd_coefplot`, src/main.py lines 2803-2824)  -/

/-- The explicit model names of a `coefplot` command (lines 2805-2814): the
whitespace tokens after the keyword that contain neither `=` nor `(`. -/
def cmd_coefplot_names (cmd : List Char) : List (List Char) :=
  ((splitWS cmd).drop 1).filter (fun p => !(p.contains '=' || p.contains '('))

/-- The names `cmd_coefplot` will look up (lines 2815-2817): the explicit
names, or `[current_name or 'lastreg']` when none are given (`or` treats both
`None` and the empty string as absent). -/
def cmd_coefplot_requested {μ : Type} (st : StoredEstimates μ) (cmd : List Char) :
    List (List Char) :=
  let ns := cmd_coefplot_names cmd
  if ns = [] then
    [match st.current_name with
     | none => "lastreg".toList
     | some n => if n = [] then "lastreg".toList else n]
  else ns

/-- Outcome of `cmd_coefplot` up to plotting: `noModels` is the text result
`No stored models found. Run regressions first.` (lines 2823-2824); `plotted`
is the success path ending in `Coefficient plot displayed.` and records which
names were requested and which models were actually found. -/
inductive CoefplotOutcome (μ : Type) : Type
  | noModels : CoefplotOutcome μ
  | plotted (requested : List (List Char)) (models : List (EstRecord μ)) :
      CoefplotOutcome μ
deriving DecidableEq

/-- `cmd_coefplot` resolution phase (lines 2803-2824): each requested name is
looked up and silently skipped when absent (`if est:` with no else,
lines 2819-2822); only an empty model list is an error. -/
def cmd_coefplot_resolve {μ : Type} (st : StoredEstimates μ) (cmd : List Char) :
    CoefplotOutcome μ :=
  let req := cmd_coefplot_requested st cmd
  let models := req.filterMap st.get
  if models.isEmpty then .noModels else .plotted req models

/-!  ## reghdfe command parsing (`translate_reghdfe`, src/main.py lines 744-762)

The handler matches `re.match(r'(reghdfe|reg|regress)\s+(\w+)\s+([^,]+)
(?:,\s*absorb\(([^)]+)\))?(?:\s*cluster\(([^)]+)\))?', command)` and
discards group 1.  The regex engine's backtracking is modelled by maximal
munch, which is exact here: the keyword alternatives are mutually exclusive
once their mandatory following whitespace is taken into account, `\w+` and
`[^,]+` cannot overlap the characters that delimit them, and everything after
the mandatory groups is optional. -/

/-- Match a literal and return the remainder. -/
def litP (pat cs : List Char) : Option (List Char) :=
  if pat.isPrefixOf cs then some (cs.drop pat.length) else none

/-- `\s+(\w+)`: mandatory whitespace, then a nonempty word group. -/
def ws1word (cs : List Char) : Option (List Char × List Char) :=
  let sp := cs.takeWhile pySpace
  if sp = [] then none
  else
    let r := cs.drop sp.length
    let w := r.takeWhile wordChar
    if w = [] then none else some (w, r.drop w.length)

/-- `\s+([^,]+)`: mandatory whitespace then a nonempty non-comma group.  When
the text after the maximal whitespace run starts with a comma (or ends), the
engine backtracks one whitespace character into the group. -/
def ws1NonComma (cs : List Char) : Option (List Char × List Char) :=
  let sp := cs.takeWhile pySpace
  if sp = [] then none
  else
    let r := cs.drop sp.length
    let g := r.takeWhile (· ≠ ',')
    if g ≠ [] then some (g, r.drop g.length)
    else if 2 ≤ sp.length then
      match sp.getLast? with
      | some x => some ([x], r)
      | none => none
    else none

/-- `(?:,\s*absorb\(([^)]+)\))?`: the optional absorb clause; on any failure
the scan position is restored. -/
def absorbOpt (cs : List Char) : Option (List Char) × List Char :=
  match litP [','] cs with
  | none => (none, cs)
  | some r1 =>
    let r2 := r1.dropWhile pySpace
    match litP ("absorb(".toList) r2 with
    | none => (none, cs)
    | some r3 =>
      let v := r3.takeWhile (· ≠ ')')
      if v = [] then (none, cs)
      else
        match litP [')'] (r3.drop v.length) with
        | none => (none, cs)
        | some r4 => (some v, r4)

/-- `(?:\s*cluster\(([^)]+)\))?`: the optional cluster clause. -/
def clusterOpt (cs : List Char) : Option (List Char) × List Char :=
  let r2 := cs.dropWhile pySpace
  match litP ("cluster(".toList) r2 with
  | none => (none, cs)
  | some r3 =>
    let v := r3.takeWhile (· ≠ ')')
    if v = [] then (none, cs)
    else
      match litP [')'] (r3.drop v.length) with
      | none => (none, cs)
      | some r4 => (some v, r4)

/-- `(reghdfe|reg|regress)\s+`: the alternation tried in pattern order, each
alternative committed only if the mandatory whitespace follows (the
alternatives cannot rescue one another: whichever literal is followed by
whitespace excludes the other two). -/
def kwAlt (cs : List Char) : Option (List Char) :=
  match litP ("reghdfe".toList) cs with
  | some r => if r.takeWhile pySpace = [] then none else some r
  | none =>
    match litP ("reg".toList) cs with
    | some r =>
      if r.takeWhile pySpace = [] then
        match litP ("regress".toList) cs with
        | some r' => if r'.takeWhile pySpace = [] then none else some r'
        | none => none
      else some r
    | none =>
      match litP ("regress".toList) cs with
      | some r' => if r'.takeWhile pySpace = [] then none else some r'
      | none => none

/-- Groups 2-5 of the `translate_reghdfe` regex (group 1, the keyword, is
discarded by the handler at line 753). -/
structure RegGroups : Type where
  dep : List Char
  indepRaw : List Char
  absorbRaw : Option (List Char)
  clusterRaw : Option (List Char)
deriving DecidableEq

/-- The `re.match` of `translate_reghdfe` (lines 747-748). -/
def reghdfe_parse (cs : List Char) : Option RegGroups := do
  let r1 ← kwAlt cs
  let (dep, r2) ← ws1word r1
  let (indepRaw, r3) ← ws1NonComma r2
  let (absorbRaw, r4) := absorbOpt r3
  let (clusterRaw, _r5) := clusterOpt r4
  pure ⟨dep, indepRaw, absorbRaw, clusterRaw⟩

/-- Lines 753-762: the raw groups are split on whitespace (each token
additionally stripped) into the variable lists the fit uses. -/
structure RegArgs : Type where
  dep : List Char
  indepv : List (List Char)
  absorbv : Option (List (List Char))
  clusterv : Option (List (List Char))
deriving DecidableEq

def regArgsOf (g : RegGroups) : RegArgs :=
  ⟨g.dep, (splitWS g.indepRaw).map stripList,
   g.absorbRaw.map (fun a => (splitWS a).map stripList),
   g.clusterRaw.map (fun a => (splitWS a).map stripList)⟩

/-!  ## translate_reghdfe as a state transformer (src/main.py lines 744-843)

The `try` block (lines 764-796) works exclusively on the local copy
`df = self._df.copy()` and on local arrays; its delegated computation
(`pd.to_numeric`, `pd.get_dummies`, `sm.OLS(...).fit()`) is abstracted as a
`fit` oracle that either returns a fitted-results object or raises.  The
first statements that touch shared state are lines 799-801 (store the result
under `lastreg`, set `self._lastreg`, set `current_name`), executed only
after the fit succeeded; the report formatting (lines 803-840) only reads the
results object.  An exception anywhere in the `try` block is caught at
line 842 and turned into the text `Error: <e>`. -/

/-- The interpreter state a handler can touch: the active dataset (opaque
type `δ` owned by the tabular store), the stored-estimate registry and
`self._lastreg`. -/
structure Session (μ δ : Type) : Type where
  df : δ
  stored : StoredEstimates μ
  lastreg : Option μ
deriving DecidableEq

/-- Outcome of the delegated statistics computation. -/
inductive FitOutcome (μ : Type) : Type
  | ok (r : μ)
  | raised (msg : List Char)
deriving DecidableEq

/-- The text result of `translate_reghdfe`: the usage message (line 751),
an `Error: <e>` message (line 843), or the formatted report of a fitted
result (lines 803-840, a pure function of the results object). -/
inductive RegResult (μ : Type) : Type
  | usage
  | errorText (msg : List Char)
  | report (r : μ)
deriving DecidableEq

/-- `translate_reghdfe(command)` as a transformer of the shared session
state, with the delegated computation supplied as the `fit` oracle.  On
success the result is stored under the fixed name `lastreg` with
`model_type = 'ols'` (line 799; the redundant `current_name = 'lastreg'` of
line 801 repeats what `store` already did). -/
def translate_reghdfe_run {μ δ : Type} (fit : RegArgs → δ → FitOutcome μ)
    (cmd : List Char) (s : Session μ δ) : RegResult μ × Session μ δ :=
  match reghdfe_parse cmd with
  | none => (.usage, s)
  | some g =>
    let args := regArgsOf g
    match fit args s.df with
    | .raised m => (.errorText ("Error: ".toList ++ m), s)
    | .ok r =>
      (.report r,
       { s with
          stored := s.stored.store ("lastreg".toList) r ("ols".toList) args.dep args.indepv,
          lastreg := some r })

/-!  ## ivreghdfe command parsing (`translate_ivreghdfe`, src/main.py lines 845-854)

The handler matches `re.match(r'ivreghdfe\s+(\w+)\s+\((\w+)\s*=\s*(\w+)\)
(?:\s+(\w+))?(?:,\s*absorb\(([^)]+)\))?(?:\s*cluster\(([^)]+)\))?', command)`:
the pattern is anchored on the literal keyword `ivreghdfe`, with no
alternation for the registered aliases `ivreg` / `ivregress`. -/

/-- `\s+\(`: mandatory whitespace then a literal. -/
def ws1lit (pat cs : List Char) : Option (List Char) :=
  let sp := cs.takeWhile pySpace
  if sp = [] then none else litP pat (cs.drop sp.length)

/-- `(\w+)` with no preceding whitespace. -/
def word1 (cs : List Char) : Option (List Char × List Char) :=
  let w := cs.takeWhile wordChar
  if w = [] then none else some (w, cs.drop w.length)

/-- The six groups of the `translate_ivreghdfe` regex. -/
structure IvGroups : Type where
  dep : List Char
  endog : List Char
  inst : List Char
  exog : Option (List Char)
  absorbRaw : Option (List Char)
  clusterRaw : Option (List Char)
deriving DecidableEq

/-- The `re.match` of `translate_ivreghdfe` (lines 848-849). -/
def ivreghdfe_parse (cs : List Char) : Option IvGroups := do
  let r1 ← litP ("ivreghdfe".toList) cs
  let (dep, r2) ← ws1word r1
  let r3 ← ws1lit ['('] r2
  let (endog, r4) ← word1 r3
  let r5 ← litP ['='] (r4.dropWhile pySpace)
  let (inst, r6) ← word1 (r5.dropWhile pySpace)
  let r7 ← litP [')'] r6
  let (exog, r8) :=
    match ws1word r7 with
    | some (w, r) => (some w, r)
    | none => (none, r7)
  let (absorbRaw, r9) := absorbOpt r8
  let (clusterRaw, _r10) := clusterOpt r9
  pure ⟨dep, endog, inst, exog, absorbRaw, clusterRaw⟩

/-- The handler boundary of `translate_ivreghdfe` (lines 849-854): a failed
match returns the pair `(None, 'Invalid ivreghdfe command format')`; a
successful match proceeds to the delegated two-stage fit on the groups. -/
inductive IvOutcome : Type
  | invalidFormat
  | fitStage (g : IvGroups)
deriving DecidableEq

def translate_ivreghdfe_outcome (cmd : List Char) : IvOutcome :=
  match ivreghdfe_parse cmd with
  | none => .invalidFormat
  | some g => .fitStage g

/-!  ## Helper lemmas  -/

theorem dropWhile_eq_self_of {p : Char → Bool} :
    ∀ {l : List Char}, (∀ c ∈ l, p c = false) → l.dropWhile p = l
  | [], _ => rfl
  | c :: rest, h => by
    simp [List.dropWhile, h c (List.mem_cons_self c rest)]

theorem stripList_eq_self {l : List Char} (h : ∀ c ∈ l, pySpace c = false) :
    stripList l = l := by
  unfold stripList
  rw [dropWhile_eq_self_of h, dropWhile_eq_self_of (by simpa using h), List.reverse_reverse]

theorem sco_loop_eq_spec :
    ∀ (cs : List Char) (d : Int) (q : Bool), sco_loop cs d q = specTopComma cs d q
  | [], _, _ => rfl
  | c :: rest, d, q => by
    by_cases hc : c = ','
    · subst hc
      have h1 : ¬((',' : Char) = '"') := by decide
      have h2 : ¬((',' : Char) = '(') := by decide
      have h3 : ¬((',' : Char) = ')') := by decide
      simp only [sco_loop, specTopComma, h1, h2, h3, if_neg, false_and, if_false,
        sco_loop_eq_spec rest]
    · simp only [sco_loop, specTopComma, hc, false_and, if_false,
        sco_loop_eq_spec rest]

theorem sco_loop_none :
    ∀ (cs : List Char) (d : Int) (q : Bool), ',' ∉ cs → sco_loop cs d q = none
  | [], _, _, _ => rfl
  | c :: rest, d, q, h => by
    have hc : ¬(c = ',') := fun e => h (e ▸ List.mem_cons_self c rest)
    have hr : ',' ∉ rest := fun e => h (List.mem_cons_of_mem c e)
    simp only [sco_loop, hc, false_and, if_false, sco_loop_none rest _ _ hr,
      Option.map_none']

/-!  ## Claim theorems  -/

/-- C6: `_split_command_options` cuts at the first comma at parenthesis
depth 0 outside quotes, returning the trimmed text before and after it; a
comma inside quotes or parentheses never splits; with no top-level comma the
whole trimmed command is the main clause and the option clause is empty —
i.e. it agrees everywhere with the splitter specified in §4.3, and the three
concrete examples of the spec hold. -/
theorem C6_split_command_options :
    (∀ cs : List Char, split_command_options cs = splitSpecModel cs)
    ∧ split_command_options ("a b c".toList) = ("a b c".toList, [])
    ∧ split_command_options ("a b, x(1)".toList) = ("a b".toList, "x(1)".toList)
    ∧ split_command_options ("a, t(\"x, y\")".toList)
        = ("a".toList, "t(\"x, y\")".toList) := by
  refine ⟨?_, by decide, by decide, by decide⟩
  intro cs
  by_cases h : ',' ∈ cs
  · simp [split_command_options, splitSpecModel, h, sco_loop_eq_spec]
  · simp [split_command_options, splitSpecModel, h,
      (sco_loop_eq_spec cs 0 false).symm, sco_loop_none cs 0 false h]

theorem po_fold_plain :
    ∀ (l : List Char) (opts : OptMap) (cur : List Char),
      (∀ c ∈ l, c ≠ '"' ∧ c ≠ '(' ∧ c ≠ ')' ∧ c ≠ ' ') →
      List.foldl poStep ⟨opts, cur, 0, false, none⟩ l
        = ⟨opts, cur ++ l, 0, false, none⟩
  | [], opts, cur, _ => by simp
  | c :: rest, opts, cur, h => by
    have hc := h c (List.mem_cons_self c rest)
    have hstep : poStep ⟨opts, cur, 0, false, none⟩ c
        = ⟨opts, cur ++ [c], 0, false, none⟩ := by
      simp [poStep, hc.1, hc.2.1, hc.2.2.1, hc.2.2.2]
    have hr : ∀ x ∈ rest, x ≠ '"' ∧ x ≠ '(' ∧ x ≠ ')' ∧ x ≠ ' ' :=
      fun x hx => h x (List.mem_cons_of_mem c hx)
    simp only [List.foldl_cons, hstep, po_fold_plain rest opts (cur ++ [c]) hr,
      List.append_assoc, List.singleton_append]

theorem po_fold_val :
    ∀ (l : List Char) (opts : OptMap) (cur : List Char) (k : List Char),
      (∀ c ∈ l, c ≠ '"' ∧ c ≠ '(' ∧ c ≠ ')') →
      List.foldl poStep ⟨opts, cur, 1, false, some k⟩ l
        = ⟨opts, cur ++ l, 1, false, some k⟩
  | [], opts, cur, k, _ => by simp
  | c :: rest, opts, cur, k, h => by
    have hc := h c (List.mem_cons_self c rest)
    have hstep : poStep ⟨opts, cur, 1, false, some k⟩ c
        = ⟨opts, cur ++ [c], 1, false, some k⟩ := by
      simp [poStep, hc.1, hc.2.1, hc.2.2]
    have hr : ∀ x ∈ rest, x ≠ '"' ∧ x ≠ '(' ∧ x ≠ ')' :=
      fun x hx => h x (List.mem_cons_of_mem c hx)
    simp only [List.foldl_cons, hstep, po_fold_val rest opts (cur ++ [c]) k hr,
      List.append_assoc, List.singleton_append]

/-- C1: the claim says `_parse_options` reports a parse error on unbalanced
parentheses or an unterminated quote and never silently returns a mapping
built from such input.  Counterexample: on `title(abc` the scan ends at
depth 1, yet the function silently returns the populated mapping
`{title: 'abc'}`; on `t "ab` it ends inside a quote and returns
`{t: True, '"ab': True}`. -/
theorem C1_counterexample :
    parse_options ("title(abc".toList)
      = [(some ("title".toList), OptVal.str ("abc".toList))]
    ∧ parse_optionsEndDepth ("title(abc".toList) = 1
    ∧ parse_options ("t \"ab".toList)
      = [(some ("t".toList), OptVal.flag), (some ("\"ab".toList), OptVal.flag)]
    ∧ parse_optionsEndQuotes ("t \"ab".toList) = true := by decide

/-- C1 (amended): `_parse_options` has no error channel at all.  An option
clause consisting of a name followed by an unterminated parenthesized value
leaves the scan at depth 1 and silently yields the mapping in which the
pending option received the accumulated text as its value. -/
theorem C1_amended :
    ∀ (name v : List Char),
      (∀ c ∈ name, c ≠ '"' ∧ c ≠ '(' ∧ c ≠ ')' ∧ pySpace c = false) →
      (∀ c ∈ v, c ≠ '"' ∧ c ≠ '(' ∧ c ≠ ')') → v ≠ [] →
      parse_options (name ++ '(' :: v)
          = [(some (lowerList name), OptVal.str v)]
        ∧ parse_optionsEndDepth (name ++ '(' :: v) = 1 := by
  intro name v hname hv hv0
  have hname' : ∀ c ∈ name, c ≠ '"' ∧ c ≠ '(' ∧ c ≠ ')' ∧ c ≠ ' ' := by
    intro c hc
    obtain ⟨h1, h2, h3, h4⟩ := hname c hc
    refine ⟨h1, h2, h3, fun e => ?_⟩
    subst e; simp [pySpace] at h4
  have hstrip : stripList name = name :=
    stripList_eq_self (fun c hc => (hname c hc).2.2.2)
  have hopen : poStep ⟨[], name, 0, false, none⟩ '('
      = ⟨[], [], 1, false, some (lowerList name)⟩ := by
    simp [poStep, hstrip]
  have hfold : List.foldl poStep poInit (name ++ '(' :: v)
      = ⟨[], v, 1, false, some (lowerList name)⟩ := by
    rw [List.foldl_append, show List.foldl poStep poInit name
        = ⟨[], name, 0, false, none⟩ from po_fold_plain name [] [] hname',
      List.foldl_cons, hopen, po_fold_val v [] [] (lowerList name) hv]
    simp
  constructor
  · rw [parse_options, hfold]
    simp [poFlush, hv0, assocSet]
  · rw [parse_optionsEndDepth, hfold]

/-- C1 (amended) witness at `title(abc`. -/
theorem C1_witness :
    parse_options ("title".toList ++ '(' :: "abc".toList)
        = [(some (lowerList ("title".toList)), OptVal.str ("abc".toList))]
      ∧ parse_optionsEndDepth ("title".toList ++ '(' :: "abc".toList) = 1 :=
  C1_amended ("title".toList) ("abc".toList) (by decide) (by decide) (by decide)

/-- C7: the claim includes that the value of a valued option is the raw text
between the matching outer parentheses with nested parentheses captured
whole.  Counterexample: `a((b))` stores value `b)` — the inner opening
parenthesis is dropped from the captured text (the loop increments the depth
without appending `(`, lines 1223-1228), so the raw text `(b)` is not what is
stored. -/
theorem C7_counterexample :
    parse_options ("a((b))".toList)
      = [(some ("a".toList), OptVal.str ("b)".toList))]
    ∧ ("b)".toList : List Char) ≠ "(b)".toList := by decide

/-- C7 (amended): an identifier directly followed by a parenthesized group is
stored as a valued option under the lower-cased name; the value is the text
between the outer parentheses except that opening parentheses occurring bare
inside the value are dropped (closing ones are kept), while quoted material —
including parentheses and blanks inside quotes — is captured whole; a bare
identifier is a flag with value `True`; the spec's concrete example holds. -/
theorem C7_parse_options :
    (∀ (name v : List Char),
      (∀ c ∈ name, c ≠ '"' ∧ c ≠ '(' ∧ c ≠ ')' ∧ pySpace c = false) →
      (∀ c ∈ v, c ≠ '"' ∧ c ≠ '(' ∧ c ≠ ')') →
      parse_options (name ++ '(' :: v ++ [')'])
        = [(some (lowerList name), OptVal.str v)])
    ∧ (∀ name : List Char, name ≠ [] →
      (∀ c ∈ name, c ≠ '"' ∧ c ≠ '(' ∧ c ≠ ')' ∧ pySpace c = false) →
      parse_options name = [(some (lowerList name), OptVal.flag)])
    ∧ parse_options ("percent title(\"My Title\") bins(20)".toList)
        = [(some ("percent".toList), OptVal.flag),
           (some ("title".toList), OptVal.str ("\"My Title\"".toList)),
           (some ("bins".toList), OptVal.str ("20".toList))]
    ∧ parse_options ("title(\"A (B) C\")".toList)
        = [(some ("title".toList), OptVal.str ("\"A (B) C\"".toList))]
    ∧ parse_options ("TITLE(x)".toList)
        = [(some ("title".toList), OptVal.str ("x".toList))] := by
  refine ⟨?_, ?_, by decide, by decide, by decide⟩
  · intro name v hname hv
    have hname' : ∀ c ∈ name, c ≠ '"' ∧ c ≠ '(' ∧ c ≠ ')' ∧ c ≠ ' ' := by
      intro c hc
      obtain ⟨h1, h2, h3, h4⟩ := hname c hc
      refine ⟨h1, h2, h3, fun e => ?_⟩
      subst e; simp [pySpace] at h4
    have hstrip : stripList name = name :=
      stripList_eq_self (fun c hc => (hname c hc).2.2.2)
    have hopen : poStep ⟨[], name, 0, false, none⟩ '('
        = ⟨[], [], 1, false, some (lowerList name)⟩ := by
      simp [poStep, hstrip]
    have hclose : poStep ⟨[], v, 1, false, some (lowerList name)⟩ ')'
        = ⟨[(some (lowerList name), OptVal.str v)], [], 0, false, none⟩ := by
      simp [poStep, assocSet]
    have hmid : List.foldl poStep poInit (name ++ '(' :: v)
        = ⟨[], v, 1, false, some (lowerList name)⟩ := by
      rw [List.foldl_append, show List.foldl poStep poInit name
          = ⟨[], name, 0, false, none⟩ from po_fold_plain name [] [] hname',
        List.foldl_cons, hopen, po_fold_val v [] [] (lowerList name) hv]
      simp
    have hfold : List.foldl poStep poInit (name ++ '(' :: v ++ [')'])
        = ⟨[(some (lowerList name), OptVal.str v)], [], 0, false, none⟩ := by
      have e1 : name ++ '(' :: v ++ [')'] = (name ++ '(' :: v) ++ [')'] := by simp
      rw [e1, List.foldl_append, hmid]
      simpa using hclose
    rw [parse_options, hfold]
    simp [poFlush]
  · intro name h0 hname
    have hname' : ∀ c ∈ name, c ≠ '"' ∧ c ≠ '(' ∧ c ≠ ')' ∧ c ≠ ' ' := by
      intro c hc
      obtain ⟨h1, h2, h3, h4⟩ := hname c hc
      refine ⟨h1, h2, h3, fun e => ?_⟩
      subst e; simp [pySpace] at h4
    have hfold : List.foldl poStep poInit name = ⟨[], name, 0, false, none⟩ :=
      po_fold_plain name [] [] hname'
    rw [parse_options, hfold]
    simp [poFlush, h0, assocSet]

/-- C7 (amended) witness at `bins(20)` and flag `percent`. -/
theorem C7_witness :
    parse_options ("bins".toList ++ '(' :: "20".toList ++ [')'])
        = [(some (lowerList ("bins".toList)), OptVal.str ("20".toList))]
    ∧ parse_options ("percent".toList)
        = [(some (lowerList ("percent".toList)), OptVal.flag)] :=
  ⟨C7_parse_options.1 ("bins".toList) ("20".toList) (by decide) (by decide),
   C7_parse_options.2.1 ("percent".toList) (by decide) (by decide)⟩

/-- C2: the claim says the `by <vars>:` rewrite appends `by(<vars>)` to the
remaining command regardless of which command follows.  Counterexample: for
`by g: summarize x` the prefix is stripped but the grouping variables are
discarded — the rewritten command is `summarize x`, not
`summarize x, by(g)`. -/
theorem C2_counterexample :
    byRewrite ("by g: summarize x".toList) = "summarize x".toList
    ∧ byRewrite ("by g: summarize x".toList) ≠ "summarize x, by(g)".toList := by
  decide

/-- C2 (amended): on a `by`/`bys` prefix match the prefix is always stripped,
but the grouping variables are carried forward (as an appended `by(...)`
option, comma inserted when absent) only when the remaining command starts,
case-insensitively, with `egen `; for any other command — and when `, by(`
already occurs in the remaining command — the remaining command is left
unchanged and the grouping variables are dropped.  The spec's two concrete
`egen` examples hold. -/
theorem C2_byRewrite :
    (∀ cmd vars inner : List Char, byMatch cmd = some (vars, inner) →
      ((("egen ".toList).isPrefixOf (lowerList inner) = false →
          byRewrite cmd = inner)
        ∧ (strContains inner (", by(".toList) = true → byRewrite cmd = inner)
        ∧ (("egen ".toList).isPrefixOf (lowerList inner) = true →
            strContains inner (", by(".toList) = false → ',' ∉ inner →
            byRewrite cmd = inner ++ ", by(".toList ++ vars ++ [')'])
        ∧ (("egen ".toList).isPrefixOf (lowerList inner) = true →
            strContains inner (", by(".toList) = false → ',' ∈ inner →
            byRewrite cmd = inner ++ " by(".toList ++ vars ++ [')'])))
    ∧ byRewrite ("by g: egen m = mean(x)".toList)
        = "egen m = mean(x), by(g)".toList
    ∧ byRewrite ("by g: egen m = mean(x), by(h)".toList)
        = "egen m = mean(x), by(h)".toList := by
  refine ⟨?_, by decide, by decide⟩
  intro cmd vars inner hm
  refine ⟨fun h1 => ?_, fun h2 => ?_, fun h1 h2 h3 => ?_, fun h1 h2 h3 => ?_⟩
  · simp only [byRewrite, hm]
    rw [h1]
    simp
  · by_cases h1 : ("egen ".toList).isPrefixOf (lowerList inner) = true
    · simp only [byRewrite, hm]
      rw [h1, h2]
      simp
    · simp only [Bool.not_eq_true] at h1
      simp only [byRewrite, hm]
      rw [h1]
      simp
  · simp only [byRewrite, hm]
    rw [h1, h2]
    simp [h3]
  · simp only [byRewrite, hm]
    rw [h1, h2]
    simp [h3]

/-- C2 (amended) witness: a non-`egen` command drops the grouping variables. -/
theorem C2_witness :
    byRewrite ("by g: summarize x".toList) = "summarize x".toList :=
  (C2_byRewrite.1 ("by g: summarize x".toList) ("g".toList)
      ("summarize x".toList) (by decide)).1 (by decide)

/-- C3: the registry maps `ivreg` and `ivregress` to `translate_ivreghdfe`,
but that handler's format regex is anchored on the literal keyword
`ivreghdfe`, so dispatching through either alias always yields the
`Invalid ivreghdfe command format` result while the canonical keyword
proceeds to the delegated fit — the code contradicts its own test
(`test_command_abbreviations.test_ivreg_abbreviations`), which expects the
alias to produce an IV regression. -/
theorem C3_alias_divergence :
    registryGet ("ivreg".toList) = some Handler.translate_ivreghdfe
    ∧ registryGet ("ivregress".toList) = some Handler.translate_ivreghdfe
    ∧ registryGet ("ivreghdfe".toList) = some Handler.translate_ivreghdfe
    ∧ translate_ivreghdfe_outcome ("ivreg y (x1 = z) x2".toList)
        = IvOutcome.invalidFormat
    ∧ translate_ivreghdfe_outcome ("ivregress y (x1 = z) x2".toList)
        = IvOutcome.invalidFormat
    ∧ translate_ivreghdfe_outcome ("ivreghdfe y (x1 = z) x2".toList)
        = IvOutcome.fitStage
            ⟨"y".toList, "x1".toList, "z".toList, some ("x2".toList), none, none⟩ := by
  decide

/-- C4: the claim says every post-estimation command requesting several
stored names fails the whole call when any is absent.  Counterexample:
with only `a` stored, `coefplot a b` silently skips the missing `b` and
reaches the success path with the one model it found. -/
theorem C4_counterexample :
    cmd_coefplot_resolve (μ := Nat)
        ⟨[("a".toList, ⟨7, [], [], [], []⟩)], some ("a".toList)⟩
        ("coefplot a b".toList)
      = CoefplotOutcome.plotted ["a".toList, "b".toList] [⟨7, [], [], [], []⟩]
    ∧ StoredEstimates.get (μ := Nat)
        ⟨[("a".toList, ⟨7, [], [], [], []⟩)], some ("a".toList)⟩ ("b".toList)
      = none := by decide

/-- C4 (amended): `cmd_esttab` resolves the requested names in order and the
first missing one fails the whole call carrying that name (the
`Error: Estimate <name> not found` result); `cmd_coefplot`, by contrast,
silently skips missing names and produces the plot from those found,
failing only when no requested name resolves. -/
theorem C4_resolution :
    (∀ (μ : Type) (st : StoredEstimates μ) (pre : List (List Char))
        (n : List Char) (post : List (List Char)),
      (∀ m ∈ pre, (st.get m).isSome) → st.get n = none →
      esttab_resolve st (pre ++ n :: post) = .missing n)
    ∧ (∀ (μ : Type) (st : StoredEstimates μ) (cmd n : List Char),
      n ∈ cmd_coefplot_requested st cmd → st.get n = none →
      (cmd_coefplot_requested st cmd).filterMap st.get ≠ [] →
      cmd_coefplot_resolve st cmd
        = .plotted (cmd_coefplot_requested st cmd)
            ((cmd_coefplot_requested st cmd).filterMap st.get)) := by
  constructor
  · intro μ st pre
    induction pre with
    | nil =>
      intro n post _ hn
      simp [esttab_resolve, hn]
    | cons m pre ih =>
      intro n post hpre hn
      obtain ⟨e, he⟩ := Option.isSome_iff_exists.mp
        (hpre m (List.mem_cons_self m pre))
      have hrec := ih n post (fun x hx => hpre x (List.mem_cons_of_mem m hx)) hn
      simp [esttab_resolve, he, hrec]
  · intro μ st cmd n _ _ hne
    rw [cmd_coefplot_resolve]
    simp only [List.isEmpty_iff, hne, if_false]

/-- C4 (amended) witness: with only `a` stored, `esttab` on `[a, b]` fails
carrying `b`, while `coefplot a b` succeeds with the single found model. -/
theorem C4_witness :
    esttab_resolve (μ := Nat)
        ⟨[("lastreg".toList, ⟨5, [], [], [], []⟩)], some ("lastreg".toList)⟩
        ["lastreg".toList, "b".toList]
      = .missing ("b".toList)
    ∧ cmd_coefplot_resolve (μ := Nat)
        ⟨[("m1".toList, ⟨3, [], [], [], []⟩)], some ("m1".toList)⟩
        ("coefplot m1 m2".toList)
      = .plotted ["m1".toList, "m2".toList] [⟨3, [], [], [], []⟩] :=
  ⟨C4_resolution.1 Nat _ ["lastreg".toList] ("b".toList) [] (by decide) (by decide),
   C4_resolution.2 Nat _ ("coefplot m1 m2".toList) ("m2".toList)
     (by decide) (by decide) (by decide)⟩

/-- C5: when the delegated computation of `translate_reghdfe` raises (for
example on a missing column), the handler returns the textual result
`Error: <e>` and the session state — active dataset, stored-estimate map and
`current_name` — is returned exactly as it was: the store under `lastreg`
happens only after a successful fit. -/
theorem C5_translate_reghdfe_failure :
    ∀ (μ δ : Type) (fit : RegArgs → δ → FitOutcome μ) (cmd : List Char)
      (s : Session μ δ) (g : RegGroups) (m : List Char),
      reghdfe_parse cmd = some g → fit (regArgsOf g) s.df = .raised m →
      translate_reghdfe_run fit cmd s
        = (.errorText ("Error: ".toList ++ m), s) := by
  intro μ δ fit cmd s g m hp hf
  rw [translate_reghdfe_run, hp]
  simp [hf]

/-- C5 witness: a fit oracle that raises on a missing column leaves a
concrete session untouched. -/
theorem C5_witness :
    translate_reghdfe_run (μ := Nat) (δ := Nat)
        (fun _ _ => .raised ("column x1 not found".toList))
        ("reg y x1".toList) ⟨0, ⟨[], none⟩, none⟩
      = (.errorText ("Error: column x1 not found".toList), ⟨0, ⟨[], none⟩, none⟩) := by
  have h := C5_translate_reghdfe_failure Nat Nat
    (fun _ _ => .raised ("column x1 not found".toList)) ("reg y x1".toList)
    ⟨0, ⟨[], none⟩, none⟩ ⟨"y".toList, "x1".toList, none, none⟩
    ("column x1 not found".toList) (by decide) rfl
  simpa using h

theorem assocGet_assocSet {κ α : Type} [DecidableEq κ] :
    ∀ (l : List (κ × α)) (k : κ) (v : α), assocGet (assocSet l k v) k = some v
  | [], k, v => by simp [assocSet, assocGet]
  | p :: rest, k, v => by
    by_cases h : p.1 = k
    · simp [assocSet, assocGet, h]
    · simp [assocSet, assocGet, h, assocGet_assocSet rest k v]

/-- C8: `StoredEstimates.store` always succeeds, records the estimate under
the name and sets `current_name` to it; a second store under the same name
overwrites so that `get` returns the newer record while `current_name` still
holds the name; and `coefplot` with no explicit names resolves to the
estimate named by `current_name`. -/
theorem C8_stored_estimates :
    (∀ (μ : Type) (st : StoredEstimates μ) (n : List Char) (r : μ)
        (t d : List Char) (iv : List (List Char)),
      (st.store n r t d iv).current_name = some n
      ∧ (st.store n r t d iv).get n = some ⟨r, t, d, iv, []⟩)
    ∧ (∀ (μ : Type) (st : StoredEstimates μ) (n : List Char) (r1 r2 : μ)
        (t1 d1 t2 d2 : List Char) (iv1 iv2 : List (List Char)),
      ((st.store n r1 t1 d1 iv1).store n r2 t2 d2 iv2).get n
          = some ⟨r2, t2, d2, iv2, []⟩
      ∧ ((st.store n r1 t1 d1 iv1).store n r2 t2 d2 iv2).current_name = some n)
    ∧ (∀ (μ : Type) (est : List (List Char × EstRecord μ)) (n : List Char)
        (e : EstRecord μ),
      n ≠ [] → assocGet est n = some e →
      cmd_coefplot_resolve ⟨est, some n⟩ ("coefplot".toList)
        = .plotted [n] [e]) := by
  refine ⟨?_, ?_, ?_⟩
  · intro μ st n r t d iv
    exact ⟨rfl, assocGet_assocSet st.estimates n _⟩
  · intro μ st n r1 r2 t1 d1 t2 d2 iv1 iv2
    exact ⟨assocGet_assocSet _ n _, rfl⟩
  · intro μ est n e hn hget
    have hnames : cmd_coefplot_names ("coefplot".toList) = [] := by decide
    have hreq : cmd_coefplot_requested (μ := μ) ⟨est, some n⟩ ("coefplot".toList)
        = [n] := by
      unfold cmd_coefplot_requested
      rw [hnames]
      simp [hn]
    rw [cmd_coefplot_resolve, hreq]
    simp [StoredEstimates.get, hget]

/-- C8 witness: overwrite and implicit resolution at concrete values. -/
theorem C8_witness :
    cmd_coefplot_resolve (μ := Nat)
        ⟨[("lastreg".toList, ⟨9, [], [], [], []⟩)], some ("lastreg".toList)⟩
        ("coefplot".toList)
      = .plotted ["lastreg".toList] [⟨9, [], [], [], []⟩] :=
  C8_stored_estimates.2.2 Nat [("lastreg".toList, ⟨9, [], [], [], []⟩)]
    ("lastreg".toList) ⟨9, [], [], [], []⟩ (by decide) (by decide)

/-- C9: the claim says a logical command empty after comment stripping adds
no entry to the command history.  Counterexample: `execute_command` appends
the command to `command_history` (line 2964) before stripping comments
(line 2985), so a full-line comment is recorded in the history — as the
repository's own test `test_comments.test_comment_preservation` expects. -/
theorem C9_counterexample :
    execute_command_step [] ("* note".toList) = ([("* note".toList)], none)
    ∧ ([("* note".toList)] : List (List Char)) ≠ [] := by decide

/-- C9 (amended): a logical command that is empty after comment stripping is
not dispatched and produces no error, but its raw text is still appended to
the command history (history records the pre-stripping text). -/
theorem C9_empty_command :
    ∀ (h : List (List Char)) (cmd : List Char),
      strip_stata_comments (byRewrite cmd) = [] →
      execute_command_step h cmd = (h ++ [cmd], none) := by
  intro h cmd hc
  simp [execute_command_step, hc]

/-- C9 (amended) witness at a full-line `//` comment. -/
theorem C9_witness :
    execute_command_step [] ("// c".toList) = ([("// c".toList)], none) :=
  C9_empty_command [] ("// c".toList) (by decide)

/-- C10: a logical command starting with `>` is routed to the persistent
scripting context without consulting the keyword table, even when the
remainder's keyword is registered; the `>` test follows the `!` shell escape
and precedes the `bash`/`cd`/keyword-table routes. -/
theorem C10_python_route :
    (∀ rest : List Char, route ('>' :: rest) = .pyExec (stripList rest))
    ∧ (∀ rest : List Char, route ('!' :: rest) = .shellBang (stripList rest))
    ∧ route ("> summarize x".toList) = .pyExec ("summarize x".toList)
    ∧ registryGet ("summarize".toList) = some Handler.cmd_summarize
    ∧ route ("summarize x".toList)
        = .table Handler.cmd_summarize ("summarize x".toList) := by
  refine ⟨?_, ?_, by decide, by decide, by decide⟩
  · intro rest
    rw [route]
    simp
  · intro rest
    rw [route]
    simp

end Stataconda
